import Mathlib

/-!
Verification of the satellite routing program in reaktor_challenge.py.

The Python source is shallowly embedded as follows.  Floating point
arithmetic is modelled by real numbers.  Satellite objects are records;
object identity (Python sets of satellites hash by reference) is modelled
by the satellite's insertion index in the network, so a network is a size
together with a map from indices to satellite records, and neighbour sets
are finite sets of indices.  Code that raises is modelled with Except.
-/

namespace Reaktor

/-! ## Geometry (Satellite.__init__, lines 72-89 of the source) -/

/-- Earth radius constant from the source: radius_of_earth = float(6371). -/
noncomputable def radiusOfEarth : ℝ := 6371

/-- Geodetic coordinates, the namedtuple coord = (latitude, longitude, altitude). -/
structure Coordinates where
  latitude : ℝ
  longitude : ℝ
  altitude : ℝ

/-- Spherical position, the namedtuple spher = (theta, phi, radius). -/
structure Spherical where
  theta : ℝ
  phi : ℝ
  radius : ℝ

/-- Horizon angle, the namedtuple horizon = (sin, cos). -/
structure Horizon where
  sin : ℝ
  cos : ℝ

/-- Satellite object: id string, coordinates, the cached spherical position and
horizon angle computed in the constructor, and the mutable neighbour set.
Neighbours are stored as network indices (Python stores object references). -/
structure Satellite where
  ident : String
  coordinates : Coordinates
  spherical : Spherical
  horizon : Horizon
  neighbours : Finset ℕ

/-- Satellite.__init__: conv = 2*pi/360, theta = (90 - latitude)*conv,
phi = longitude*conv, radius = 6371 + altitude, coshorizon = 6371/radius,
sinhorizon = sqrt(1 - coshorizon^2), neighbours initially empty. -/
noncomputable def mkSatellite (ident : String) (c : Coordinates) : Satellite :=
  let conv : ℝ := 2 * Real.pi / 360
  let theta := (90 - c.latitude) * conv
  let phi := c.longitude * conv
  let sph : Spherical := ⟨theta, phi, radiusOfEarth + c.altitude⟩
  let coshorizon := radiusOfEarth / sph.radius
  let sinhorizon := Real.sqrt (1 - coshorizon * coshorizon)
  { ident := ident
    coordinates := c
    spherical := sph
    horizon := ⟨sinhorizon, coshorizon⟩
    neighbours := ∅ }

/-- Condition under which Satellite.__init__ raises in Python: a
ZeroDivisionError when the derived radius 6371 + altitude is zero, or a
ValueError from math.sqrt when 1 - coshorizon^2 is negative.  (Real.sqrt is
total in Lean, so the raising condition is recorded explicitly and theorems
about constructed satellites assume its negation.) -/
noncomputable def constructionFails (c : Coordinates) : Prop :=
  radiusOfEarth + c.altitude = 0 ∨
    1 - (radiusOfEarth / (radiusOfEarth + c.altitude)) *
        (radiusOfEarth / (radiusOfEarth + c.altitude)) < 0

/-- Satellite.lineofsight (lines 94-99): cossumhorizon < cospsi, where
cossumhorizon is the cosine-sum identity applied to the two cached horizon
angles and cospsi is the spherical law of cosines applied to the two cached
spherical positions. -/
noncomputable def lineofsight (s another : Satellite) : Prop :=
  s.horizon.cos * another.horizon.cos - s.horizon.sin * another.horizon.sin <
    Real.cos s.spherical.theta * Real.cos another.spherical.theta +
      Real.sin s.spherical.theta * Real.sin another.spherical.theta *
        Real.cos (s.spherical.phi - another.spherical.phi)

/-- Spherical law of cosines value is at most 1, for any polar angles and any
azimuthal difference. -/
lemma cospsi_le_one (t1 t2 d : ℝ) :
    Real.cos t1 * Real.cos t2 + Real.sin t1 * Real.sin t2 * Real.cos d ≤ 1 := by
  rcases le_total 0 (Real.sin t1 * Real.sin t2) with hpos | hneg
  · have h1 : Real.sin t1 * Real.sin t2 * Real.cos d ≤ Real.sin t1 * Real.sin t2 := by
      have := mul_le_mul_of_nonneg_left (Real.cos_le_one d) hpos
      simpa [mul_one] using this
    have h2 : Real.cos t1 * Real.cos t2 + Real.sin t1 * Real.sin t2 = Real.cos (t1 - t2) :=
      (Real.cos_sub t1 t2).symm
    have h3 := Real.cos_le_one (t1 - t2)
    linarith
  · have h1 : Real.sin t1 * Real.sin t2 * Real.cos d ≤ -(Real.sin t1 * Real.sin t2) := by
      have := mul_le_mul_of_nonpos_left (Real.neg_one_le_cos d) hneg
      simpa [mul_neg_one] using this
    have h2 : Real.cos t1 * Real.cos t2 - Real.sin t1 * Real.sin t2 = Real.cos (t1 + t2) :=
      (Real.cos_add t1 t2).symm
    have h3 := Real.cos_le_one (t1 + t2)
    linarith

/-- C4: the line-of-sight predicate is symmetric: for every pair of satellites
(with arbitrary cached spherical positions and horizon angles, not only ones
derived from coordinates), lineofsight(A, B) equals lineofsight(B, A). -/
theorem lineofsight_symm (a b : Satellite) : lineofsight a b ↔ lineofsight b a := by
  unfold lineofsight
  have hc : Real.cos (b.spherical.phi - a.spherical.phi) =
      Real.cos (a.spherical.phi - b.spherical.phi) := by
    rw [← Real.cos_neg (a.spherical.phi - b.spherical.phi), neg_sub]
  constructor
  · intro h
    have e1 : b.horizon.cos * a.horizon.cos - b.horizon.sin * a.horizon.sin =
        a.horizon.cos * b.horizon.cos - a.horizon.sin * b.horizon.sin := by ring
    have e2 : Real.cos b.spherical.theta * Real.cos a.spherical.theta +
        Real.sin b.spherical.theta * Real.sin a.spherical.theta *
          Real.cos (b.spherical.phi - a.spherical.phi) =
        Real.cos a.spherical.theta * Real.cos b.spherical.theta +
          Real.sin a.spherical.theta * Real.sin b.spherical.theta *
            Real.cos (a.spherical.phi - b.spherical.phi) := by
      rw [hc]; ring
    rw [e1, e2]; exact h
  · intro h
    have e1 : a.horizon.cos * b.horizon.cos - a.horizon.sin * b.horizon.sin =
        b.horizon.cos * a.horizon.cos - b.horizon.sin * a.horizon.sin := by ring
    have e2 : Real.cos a.spherical.theta * Real.cos b.spherical.theta +
        Real.sin a.spherical.theta * Real.sin b.spherical.theta *
          Real.cos (a.spherical.phi - b.spherical.phi) =
        Real.cos b.spherical.theta * Real.cos a.spherical.theta +
          Real.sin b.spherical.theta * Real.sin a.spherical.theta *
            Real.cos (b.spherical.phi - a.spherical.phi) := by
      rw [hc]; ring
    rw [e1, e2]; exact h

/-- C5 counterexample: the coordinate (0, 0, -19113) has derived radius
6371 - 19113 = -12742 which is nonpositive, yet construction does not fail:
the horizon-cosine ratio is -1/2 and sqrt(1 - 1/4) is well defined.  This
refutes the claim that construction fails for every radius ≤ 0. -/
theorem construction_radius_nonpos_counterexample :
    radiusOfEarth + Coordinates.altitude ⟨0, 0, -19113⟩ ≤ 0 ∧
      ¬ constructionFails ⟨0, 0, -19113⟩ := by
  constructor
  · show radiusOfEarth + (-19113 : ℝ) ≤ 0
    unfold radiusOfEarth; norm_num
  · unfold constructionFails radiusOfEarth
    push_neg
    constructor
    · show (6371 : ℝ) + (-19113 : ℝ) ≠ 0
      norm_num
    · show (0:ℝ) ≤ 1 - (6371 / ((6371:ℝ) + (-19113))) * (6371 / ((6371:ℝ) + (-19113)))
      norm_num

lemma constructionFails_band (c : Coordinates) :
    constructionFails c ↔ -(2 * radiusOfEarth) < c.altitude ∧ c.altitude < 0 := by
  unfold constructionFails radiusOfEarth
  set a := c.altitude with ha
  constructor
  · rintro (h | h)
    · constructor <;> nlinarith
    · by_cases hz : (6371 : ℝ) + a = 0
      · rw [hz] at h
        simp [div_zero] at h
        linarith
      · have hpos : (0:ℝ) < ((6371:ℝ) + a) ^ 2 := by positivity
        have hratio : (6371 / ((6371:ℝ) + a)) * (6371 / ((6371:ℝ) + a)) =
            (6371:ℝ) ^ 2 / ((6371:ℝ) + a) ^ 2 := by
          rw [div_mul_div_comm, ← pow_two, ← pow_two]
        rw [hratio] at h
        have h2 : ((6371:ℝ) + a) ^ 2 < (6371:ℝ) ^ 2 := by
          have hgt : (1:ℝ) < (6371:ℝ) ^ 2 / ((6371:ℝ) + a) ^ 2 := by linarith
          have := (one_lt_div hpos).mp hgt
          linarith
        constructor <;> nlinarith [sq_nonneg ((6371:ℝ) + a)]
  · rintro ⟨h1, h2⟩
    by_cases hz : (6371 : ℝ) + a = 0
    · exact Or.inl hz
    · refine Or.inr ?_
      have hlow : -(6371:ℝ) < (6371:ℝ) + a := by linarith
      have hhigh : (6371:ℝ) + a < 6371 := by linarith
      have hsq : ((6371:ℝ) + a) ^ 2 < (6371:ℝ) ^ 2 := by nlinarith
      have hpos : (0:ℝ) < ((6371:ℝ) + a) ^ 2 := by positivity
      have hratio : (6371 / ((6371:ℝ) + a)) * (6371 / ((6371:ℝ) + a)) =
          (6371:ℝ) ^ 2 / ((6371:ℝ) + a) ^ 2 := by
        rw [div_mul_div_comm, ← pow_two, ← pow_two]
      rw [hratio]
      have hgt : (1:ℝ) < (6371:ℝ) ^ 2 / ((6371:ℝ) + a) ^ 2 := (one_lt_div hpos).mpr hsq
      linarith

/-- C5 (amended): construction fails exactly when the derived radius
6371 + altitude is zero (division by zero) or the ratio 6371/radius has
magnitude above 1 (sqrt of a negative); equivalently, exactly when the
altitude lies strictly between -2*6371 = -12742 and 0.  In particular a
coordinate with radius ≤ -6371 constructs successfully. -/
theorem constructionFails_iff_altitude_band (c : Coordinates) :
    constructionFails c ↔ -(2 * radiusOfEarth) < c.altitude ∧ c.altitude < 0 :=
  constructionFails_band c

/-! ## Network construction (Network class, lines 22-46 of the source)

A network owns a set of satellites.  Python identifies satellites by object
reference; we index the objects by insertion order, so the members are the
indices 0, ..., size-1 and the mutable per-object neighbour sets live in the
indexed map.  The invariant that every stored neighbour reference points at a
member (true of every state the program can reach, since connect only ever
stores current members and the fresh satellite) is carried on the structure;
the route search needs it to terminate. -/

structure Network where
  size : ℕ
  sat : ℕ → Satellite
  nbrs_lt : ∀ i, ∀ j ∈ (sat i).neighbours, j < size

/-- Comparison of real numbers is not constructive; the Python program
compares floats, so the visibility test is classically decidable. -/
noncomputable instance lineofsightDec (s t : Satellite) : Decidable (lineofsight s t) :=
  Classical.dec _

/-- Network.__init__: the empty network. -/
noncomputable def emptyNetwork : Network where
  size := 0
  sat := fun _ => mkSatellite "" ⟨0, 0, 0⟩
  nbrs_lt := by intro i j hj; simp [mkSatellite] at hj

/-- Network.visible_satellites_at: build a transient probe satellite
t = Satellite('T', coordinates) and return the set of member satellites s
with s.lineofsight(t). -/
noncomputable def visibleSatellitesAt (net : Network) (c : Coordinates) : Finset ℕ :=
  let t := mkSatellite "T" c
  Finset.filter (fun i => lineofsight (net.sat i) t) (Finset.range net.size)

/-- Network.connect: the new satellite (in the program always one freshly
constructed from a SAT record, hence not yet a member; it receives the fresh
index net.size) gets the set of members visible at its coordinates as its
neighbour set, is added to membership, and then each of those neighbours n
runs n.connect_with(new), adding the new index to its own neighbour set. -/
noncomputable def connect (net : Network) (s : Satellite) : Network where
  size := net.size + 1
  sat := fun i =>
    if i = net.size then
      { s with neighbours := visibleSatellitesAt net s.coordinates }
    else if i ∈ visibleSatellitesAt net s.coordinates then
      { net.sat i with neighbours := insert net.size (net.sat i).neighbours }
    else net.sat i
  nbrs_lt := by
    intro i j hj
    dsimp only at hj
    split_ifs at hj with h1 h2
    · have := Finset.mem_range.mp (Finset.mem_filter.mp hj).1
      omega
    · rcases Finset.mem_insert.mp hj with rfl | hj2
      · omega
      · have := net.nbrs_lt i j hj2
        omega
    · have := net.nbrs_lt i j hj
      omega

/-- Driver loop over SAT records: each record constructs a fresh Satellite and
connects it (lines 127-131 of the source). -/
noncomputable def build (recs : List (String × Coordinates)) : Network :=
  recs.foldl (fun net r => connect net (mkSatellite r.1 r.2)) emptyNetwork

/-- Visible satellites are members. -/
lemma mem_visible_lt {net : Network} {c : Coordinates} {i : ℕ}
    (h : i ∈ visibleSatellitesAt net c) : i < net.size :=
  Finset.mem_range.mp (Finset.mem_filter.mp h).1

/-- Membership in the visible set unfolds to membership plus line of sight. -/
lemma mem_visible_iff {net : Network} {c : Coordinates} {i : ℕ} :
    i ∈ visibleSatellitesAt net c ↔
      i < net.size ∧ lineofsight (net.sat i) (mkSatellite "T" c) := by
  unfold visibleSatellitesAt
  simp [Finset.mem_filter, Finset.mem_range]

/-- Satellite stored at an index after a connect call, by definition. -/
lemma connect_sat_def (net : Network) (s : Satellite) (i : ℕ) :
    (connect net s).sat i =
      (if i = net.size then
        { s with neighbours := visibleSatellitesAt net s.coordinates }
      else if i ∈ visibleSatellitesAt net s.coordinates then
        { net.sat i with neighbours := insert net.size (net.sat i).neighbours }
      else net.sat i) := rfl

/-- Neighbour sets after a connect call, case by case. -/
lemma connect_sat_nbrs (net : Network) (s : Satellite) (i : ℕ) :
    ((connect net s).sat i).neighbours =
      if i = net.size then visibleSatellitesAt net s.coordinates
      else if i ∈ visibleSatellitesAt net s.coordinates then
        insert net.size (net.sat i).neighbours
      else (net.sat i).neighbours := by
  rw [connect_sat_def]
  split_ifs with h1 h2 <;> rfl

/-- The fresh index receives the connected satellite with its visible set. -/
lemma connect_sat_at_new (net : Network) (s : Satellite) :
    (connect net s).sat net.size =
      { s with neighbours := visibleSatellitesAt net s.coordinates } := by
  rw [connect_sat_def, if_pos rfl]

/-- Old indices keep their satellite, up to the neighbour set. -/
lemma connect_sat_of_ne (net : Network) (s : Satellite) (i : ℕ) (h : i ≠ net.size) :
    ∃ nb, (connect net s).sat i = { net.sat i with neighbours := nb } := by
  rw [connect_sat_def, if_neg h]
  split_ifs with h2
  · exact ⟨_, rfl⟩
  · exact ⟨(net.sat i).neighbours, rfl⟩

/-- The neighbour relation is symmetric. -/
def SymmNbrs (net : Network) : Prop :=
  ∀ a b, b ∈ (net.sat a).neighbours ↔ a ∈ (net.sat b).neighbours

/-- No satellite is in its own neighbour set. -/
def IrreflNbrs (net : Network) : Prop :=
  ∀ a, a ∉ (net.sat a).neighbours

/-- Every member's cached horizon angle is the one its constructor derives from
its coordinates (connect and the neighbour updates never touch it). -/
def DerivedGeom (net : Network) : Prop :=
  ∀ i, i < net.size →
    (net.sat i).horizon = (mkSatellite "T" ((net.sat i).coordinates)).horizon

lemma symm_connect {net : Network} (s : Satellite) (hsym : SymmNbrs net) :
    SymmNbrs (connect net s) := by
  intro a b
  have hVlt : ∀ j ∈ visibleSatellitesAt net s.coordinates, j < net.size :=
    fun j hj => mem_visible_lt hj
  rw [connect_sat_nbrs, connect_sat_nbrs]
  by_cases hak : a = net.size <;> by_cases hbk : b = net.size
  · subst hak; subst hbk
    rw [if_pos rfl]
  · subst hak
    rw [if_pos rfl, if_neg hbk]
    by_cases hbV : b ∈ visibleSatellitesAt net s.coordinates
    · rw [if_pos hbV]
      exact ⟨fun _ => Finset.mem_insert_self _ _, fun _ => hbV⟩
    · rw [if_neg hbV]
      exact ⟨fun h => absurd h hbV,
        fun h => absurd (net.nbrs_lt _ _ h) (lt_irrefl _)⟩
  · subst hbk
    rw [if_neg hak, if_pos rfl]
    by_cases haV : a ∈ visibleSatellitesAt net s.coordinates
    · rw [if_pos haV]
      exact ⟨fun _ => haV, fun _ => Finset.mem_insert_self _ _⟩
    · rw [if_neg haV]
      exact ⟨fun h => absurd (net.nbrs_lt _ _ h) (lt_irrefl _),
        fun h => absurd h haV⟩
  · rw [if_neg hak, if_neg hbk]
    have left : b ∈ (if a ∈ visibleSatellitesAt net s.coordinates then
        insert net.size (net.sat a).neighbours else (net.sat a).neighbours) ↔
        b ∈ (net.sat a).neighbours := by
      split_ifs with haV
      · rw [Finset.mem_insert]
        exact ⟨fun h => h.resolve_left hbk, Or.inr⟩
      · exact Iff.rfl
    have right : a ∈ (if b ∈ visibleSatellitesAt net s.coordinates then
        insert net.size (net.sat b).neighbours else (net.sat b).neighbours) ↔
        a ∈ (net.sat b).neighbours := by
      split_ifs with hbV
      · rw [Finset.mem_insert]
        exact ⟨fun h => h.resolve_left hak, Or.inr⟩
      · exact Iff.rfl
    rw [left, right]
    exact hsym a b

lemma irrefl_connect {net : Network} (s : Satellite) (hirr : IrreflNbrs net) :
    IrreflNbrs (connect net s) := by
  intro a
  rw [connect_sat_nbrs]
  by_cases hak : a = net.size
  · subst hak
    rw [if_pos rfl]
    intro h
    exact absurd (mem_visible_lt h) (lt_irrefl _)
  · rw [if_neg hak]
    split_ifs with haV
    · intro h
      rcases Finset.mem_insert.mp h with h1 | h2
      · exact hak h1
      · exact hirr a h2
    · exact hirr a

lemma derived_connect {net : Network} (ident : String) (c : Coordinates)
    (hd : DerivedGeom net) : DerivedGeom (connect net (mkSatellite ident c)) := by
  intro i hi
  by_cases hik : i = net.size
  · subst hik
    rw [connect_sat_at_new]
    rfl
  · obtain ⟨nb, hnb⟩ := connect_sat_of_ne net _ i hik
    rw [hnb]
    have hilt : i < net.size := by
      have h1 : i < net.size + 1 := hi
      omega
    exact hd i hilt

lemma build_invariants (recs : List (String × Coordinates)) :
    SymmNbrs (build recs) ∧ IrreflNbrs (build recs) ∧ DerivedGeom (build recs) := by
  have general : ∀ (l : List (String × Coordinates)) (net : Network),
      SymmNbrs net → IrreflNbrs net → DerivedGeom net →
      SymmNbrs (l.foldl (fun n r => connect n (mkSatellite r.1 r.2)) net) ∧
      IrreflNbrs (l.foldl (fun n r => connect n (mkSatellite r.1 r.2)) net) ∧
      DerivedGeom (l.foldl (fun n r => connect n (mkSatellite r.1 r.2)) net) := by
    intro l
    induction l with
    | nil => intro net h1 h2 h3; exact ⟨h1, h2, h3⟩
    | cons r tl ih =>
      intro net h1 h2 h3
      exact ih (connect net (mkSatellite r.1 r.2)) (symm_connect _ h1)
        (irrefl_connect _ h2) (derived_connect r.1 r.2 h3)
  refine general recs emptyNetwork ?_ ?_ ?_
  · intro a b
    simp [emptyNetwork, mkSatellite]
  · intro a
    simp [emptyNetwork, mkSatellite]
  · intro i hi
    exact absurd hi (Nat.not_lt_zero i)

/-- C3: after any sequence of connect calls starting from the empty network,
the neighbour relation is symmetric: B is in A's neighbour set iff A is in
B's (stated for all indices; in particular for all members). -/
theorem build_neighbour_symm (recs : List (String × Coordinates)) (a b : ℕ) :
    b ∈ ((build recs).sat a).neighbours ↔ a ∈ ((build recs).sat b).neighbours :=
  (build_invariants recs).1 a b

/-- C8: after any sequence of connect calls, no satellite is a member of its
own neighbour set: connect computes the visible set against membership before
the new satellite is added, and later connect_with calls only ever add the
fresh index to older satellites. -/
theorem build_no_self_neighbour (recs : List (String × Coordinates)) (a : ℕ) :
    a ∉ ((build recs).sat a).neighbours :=
  (build_invariants recs).2.1 a

/-- Horizon angle derived from an altitude-zero coordinate: cos = 6371/6371 = 1
and sin = sqrt(1 - 1) = 0. -/
lemma horizon_of_zero_altitude (ident : String) (c : Coordinates)
    (hc : c.altitude = 0) : (mkSatellite ident c).horizon = ⟨0, 1⟩ := by
  unfold mkSatellite
  have hne : radiusOfEarth ≠ 0 := by unfold radiusOfEarth; norm_num
  have hcos : radiusOfEarth / (radiusOfEarth + c.altitude) = 1 := by
    rw [hc, add_zero, div_self hne]
  dsimp only
  rw [hcos]
  norm_num

/-- C10: with the strict comparison cossumhorizon < cospsi, a member satellite
whose record has altitude 0 (horizon sin 0, cos 1) is never visible from an
altitude-0 probe coordinate, because cossumhorizon = 1 while cospsi ≤ 1; this
holds even when the probe sits at the satellite's exact coordinates. -/
theorem altitude_zero_never_visible (recs : List (String × Coordinates))
    (c : Coordinates) (i : ℕ) (hc : c.altitude = 0)
    (hi : ((build recs).sat i).coordinates.altitude = 0) :
    i ∉ visibleSatellitesAt (build recs) c := by
  intro hmem
  obtain ⟨hlt, hlos⟩ := mem_visible_iff.mp hmem
  have hder := (build_invariants recs).2.2 i hlt
  have hsat : ((build recs).sat i).horizon = ⟨0, 1⟩ := by
    rw [hder, horizon_of_zero_altitude _ _ hi]
  have hprobe : (mkSatellite "T" c).horizon = ⟨0, 1⟩ :=
    horizon_of_zero_altitude _ _ hc
  unfold lineofsight at hlos
  rw [hsat, hprobe] at hlos
  simp only [one_mul, mul_zero, sub_zero, mul_one, zero_mul] at hlos
  exact absurd hlos (not_lt.mpr (cospsi_le_one _ _ _))

/-! ## Route search queue (Network.route, lines 48-69 of the source)

Python pushes tuples (length, satellite, path) onto a heapq binary heap and
pops the minimum under lexicographic tuple order.  Under Python 2 equal
lengths fall back to comparing the Satellite objects themselves (an arbitrary
but fixed total order by type name and address); we model that arbitrary tie
order by the satellite's index, and the final path component by lexicographic
list order.  heapq semantics are captured by treating the queue as a plain
list from which popMin extracts a minimal element. -/

structure Entry where
  length : ℕ
  key : ℕ
  path : List ℕ
deriving DecidableEq

/-- Lexicographic comparison of path components (third tuple slot). -/
def pathLe : List ℕ → List ℕ → Bool
  | [], _ => true
  | _ :: _, [] => false
  | a :: as, b :: bs => if a < b then true else if b < a then false else pathLe as bs

/-- Lexicographic comparison of heap entries: length first, then the
arbitrary-but-fixed satellite tie order, then the path. -/
def entryLe (a b : Entry) : Bool :=
  if a.length < b.length then true
  else if b.length < a.length then false
  else if a.key < b.key then true
  else if b.key < a.key then false
  else pathLe a.path b.path

lemma entryLe_true_length {a b : Entry} (h : entryLe a b = true) :
    a.length ≤ b.length := by
  unfold entryLe at h
  split_ifs at h <;> omega

lemma entryLe_false_length {a b : Entry} (h : entryLe a b = false) :
    b.length ≤ a.length := by
  unfold entryLe at h
  split_ifs at h <;> omega

/-- heappop: extract a minimal entry, returning it and the remaining queue. -/
def popMin : List Entry → Option (Entry × List Entry)
  | [] => none
  | e :: es =>
    match popMin es with
    | none => some (e, es)
    | some (m, rest) => if entryLe e m then some (e, es) else some (m, e :: rest)

lemma popMin_none {q : List Entry} : popMin q = none ↔ q = [] := by
  cases q with
  | nil => simp [popMin]
  | cons e es =>
    cases hes : popMin es with
    | none => simp [popMin, hes]
    | some p =>
      obtain ⟨m, rest⟩ := p
      simp only [popMin, hes]
      split_ifs <;> simp

lemma popMin_mem : ∀ {q : List Entry} {e : Entry} {rest : List Entry},
    popMin q = some (e, rest) → e ∈ q := by
  intro q
  induction q with
  | nil => intro e rest h; simp [popMin] at h
  | cons a es ih =>
    intro e rest h
    cases hes : popMin es with
    | none =>
      simp only [popMin, hes, Option.some.injEq, Prod.mk.injEq] at h
      exact h.1 ▸ List.mem_cons_self a es
    | some p =>
      obtain ⟨m, r⟩ := p
      simp only [popMin, hes] at h
      split_ifs at h with hle <;>
        simp only [Option.some.injEq, Prod.mk.injEq] at h
      · exact h.1 ▸ List.mem_cons_self a es
      · exact List.mem_cons_of_mem a (h.1 ▸ ih hes)

lemma popMin_min : ∀ {q : List Entry} {e : Entry} {rest : List Entry},
    popMin q = some (e, rest) → ∀ x ∈ q, e.length ≤ x.length := by
  intro q
  induction q with
  | nil => intro e rest h; simp [popMin] at h
  | cons a es ih =>
    intro e rest h x hx
    cases hes : popMin es with
    | none =>
      have hesnil : es = [] := popMin_none.mp hes
      simp only [popMin, hes, Option.some.injEq, Prod.mk.injEq] at h
      obtain ⟨rfl, rfl⟩ := h
      subst hesnil
      rcases List.mem_cons.mp hx with rfl | hx2
      · exact le_refl _
      · simp at hx2
    | some p =>
      obtain ⟨m, r⟩ := p
      simp only [popMin, hes] at h
      split_ifs at h with hle <;>
        simp only [Option.some.injEq, Prod.mk.injEq] at h
      · obtain ⟨rfl, rfl⟩ := h
        rcases List.mem_cons.mp hx with rfl | hx2
        · exact le_refl _
        · exact le_trans (entryLe_true_length hle) (ih hes x hx2)
      · obtain ⟨rfl, rfl⟩ := h
        rcases List.mem_cons.mp hx with rfl | hx2
        · exact entryLe_false_length (Bool.of_not_eq_true hle)
        · exact ih hes x hx2

lemma popMin_rest_sub : ∀ {q : List Entry} {e : Entry} {rest : List Entry},
    popMin q = some (e, rest) → ∀ x ∈ rest, x ∈ q := by
  intro q
  induction q with
  | nil => intro e rest h; simp [popMin] at h
  | cons a es ih =>
    intro e rest h x hx
    cases hes : popMin es with
    | none =>
      simp only [popMin, hes, Option.some.injEq, Prod.mk.injEq] at h
      exact List.mem_cons_of_mem a (h.2 ▸ hx)
    | some p =>
      obtain ⟨m, r⟩ := p
      simp only [popMin, hes] at h
      split_ifs at h with hle <;>
        simp only [Option.some.injEq, Prod.mk.injEq] at h
      · exact List.mem_cons_of_mem a (h.2 ▸ hx)
      · obtain ⟨rfl, rfl⟩ := h
        rcases List.mem_cons.mp hx with rfl | hx2
        · exact List.mem_cons_self _ _
        · exact List.mem_cons_of_mem a (ih hes x hx2)

lemma popMin_mem_rest : ∀ {q : List Entry} {e : Entry} {rest : List Entry},
    popMin q = some (e, rest) → ∀ x ∈ q, x ≠ e → x ∈ rest := by
  intro q
  induction q with
  | nil => intro e rest h; simp [popMin] at h
  | cons a es ih =>
    intro e rest h x hx hne
    cases hes : popMin es with
    | none =>
      simp only [popMin, hes, Option.some.injEq, Prod.mk.injEq] at h
      obtain ⟨rfl, rfl⟩ := h
      rcases List.mem_cons.mp hx with rfl | hx2
      · exact absurd rfl hne
      · exact hx2
    | some p =>
      obtain ⟨m, r⟩ := p
      simp only [popMin, hes] at h
      split_ifs at h with hle <;>
        simp only [Option.some.injEq, Prod.mk.injEq] at h
      · obtain ⟨rfl, rfl⟩ := h
        rcases List.mem_cons.mp hx with rfl | hx2
        · exact absurd rfl hne
        · exact hx2
      · obtain ⟨rfl, rfl⟩ := h
        rcases List.mem_cons.mp hx with rfl | hx2
        · exact List.mem_cons_self _ _
        · exact List.mem_cons_of_mem a (ih hes x hx2 hne)

lemma popMin_length : ∀ {q : List Entry} {e : Entry} {rest : List Entry},
    popMin q = some (e, rest) → rest.length + 1 = q.length := by
  intro q
  induction q with
  | nil => intro e rest h; simp [popMin] at h
  | cons a es ih =>
    intro e rest h
    cases hes : popMin es with
    | none =>
      simp only [popMin, hes, Option.some.injEq, Prod.mk.injEq] at h
      rw [← h.2]
      simp
    | some p =>
      obtain ⟨m, r⟩ := p
      simp only [popMin, hes] at h
      split_ifs at h with hle <;>
        simp only [Option.some.injEq, Prod.mk.injEq] at h
      · rw [← h.2]
        simp
      · rw [← h.2]
        have := ih hes
        simp only [List.length_cons]
        omega

/-! ## The search loop -/

/-- RouteNotFound message for an empty start visibility set. -/
def noStartMsg : String := "No satellites in sight at start coordinates"

/-- RouteNotFound message for an empty finish visibility set. -/
def noFinishMsg : String := "No satellites in sight at finish coordinates"

/-- RouteNotFound message when the queue exhausts (heappop raises IndexError). -/
def noRouteMsg : String := "No route found between given coordinates"

/-- Keys (satellite indices) present in the queue. -/
def qKeys (q : List Entry) : Finset ℕ :=
  (q.map Entry.key).toFinset

/-- Entries pushed when a satellite is finalized: one per neighbour, with
length + 1 and the path extended by the finalized satellite (lines 66-67). -/
noncomputable def pushesOf (net : Network) (e : Entry) : List Entry :=
  ((net.sat e.key).neighbours.sort (· ≤ ·)).map
    (fun n => ⟨e.length + 1, n, e.path ++ [e.key]⟩)

/-- Termination measure for the loop: satellites that could still be newly
finalized (keys in the queue or members, minus seen), weighted by one more
than the largest possible push burst, plus the queue length. -/
noncomputable def measureE (net : Network) (q : List Entry) (seen : Finset ℕ) : ℕ :=
  ((qKeys q ∪ Finset.range net.size) \ seen).card * (net.size + 1) + q.length

lemma measure_pop_lt {q : List Entry} {e : Entry} {rest : List Entry}
    (hpop : popMin q = some (e, rest)) (net : Network) (seen : Finset ℕ) :
    measureE net rest seen < measureE net q seen := by
  unfold measureE
  have hsub : qKeys rest ⊆ qKeys q := by
    intro x hx
    obtain ⟨en, hen, rfl⟩ := List.mem_map.mp (List.mem_toFinset.mp hx)
    exact List.mem_toFinset.mpr (List.mem_map_of_mem Entry.key (popMin_rest_sub hpop en hen))
  have hcard : ((qKeys rest ∪ Finset.range net.size) \ seen).card ≤
      ((qKeys q ∪ Finset.range net.size) \ seen).card :=
    Finset.card_le_card
      (Finset.sdiff_subset_sdiff (Finset.union_subset_union_left hsub) (le_refl seen))
  have hlen := popMin_length hpop
  have := Nat.mul_le_mul_right (net.size + 1) hcard
  omega

lemma measure_push_lt (net : Network) {q : List Entry} {e : Entry} {rest : List Entry}
    {seen : Finset ℕ} (hpop : popMin q = some (e, rest)) (hseen : e.key ∉ seen) :
    measureE net (rest ++ pushesOf net e) (insert e.key seen) < measureE net q seen := by
  unfold measureE
  have hqsub : qKeys (rest ++ pushesOf net e) ∪ Finset.range net.size ⊆
      qKeys q ∪ Finset.range net.size := by
    intro x hx
    rcases Finset.mem_union.mp hx with hx1 | hx2
    · obtain ⟨en, hen, rfl⟩ := List.mem_map.mp (List.mem_toFinset.mp hx1)
      rcases List.mem_append.mp hen with hen1 | hen2
      · exact Finset.mem_union_left _
          (List.mem_toFinset.mpr (List.mem_map_of_mem Entry.key (popMin_rest_sub hpop en hen1)))
      · obtain ⟨n, hn, rfl⟩ := List.mem_map.mp hen2
        have hn2 : n ∈ (net.sat e.key).neighbours := (Finset.mem_sort _).mp hn
        exact Finset.mem_union_right _ (Finset.mem_range.mpr (net.nbrs_lt _ _ hn2))
    · exact Finset.mem_union_right _ hx2
  have hkey : e.key ∈ (qKeys q ∪ Finset.range net.size) \ seen := by
    refine Finset.mem_sdiff.mpr ⟨?_, hseen⟩
    exact Finset.mem_union_left _
      (List.mem_toFinset.mpr (List.mem_map_of_mem Entry.key (popMin_mem hpop)))
  have hdiffsub : (qKeys (rest ++ pushesOf net e) ∪ Finset.range net.size) \ insert e.key seen ⊆
      ((qKeys q ∪ Finset.range net.size) \ seen).erase e.key := by
    intro x hx
    obtain ⟨hx1, hx2⟩ := Finset.mem_sdiff.mp hx
    have hxk : x ≠ e.key := fun h => hx2 (h ▸ Finset.mem_insert_self _ _)
    refine Finset.mem_erase.mpr ⟨hxk, Finset.mem_sdiff.mpr ⟨hqsub hx1, ?_⟩⟩
    exact fun h => hx2 (Finset.mem_insert_of_mem h)
  have hcard : ((qKeys (rest ++ pushesOf net e) ∪ Finset.range net.size) \
      insert e.key seen).card < ((qKeys q ∪ Finset.range net.size) \ seen).card :=
    lt_of_le_of_lt (Finset.card_le_card hdiffsub) (Finset.card_erase_lt_of_mem hkey)
  have hpush : (pushesOf net e).length ≤ net.size := by
    unfold pushesOf
    rw [List.length_map, Finset.length_sort]
    have hsub2 : (net.sat e.key).neighbours ⊆ Finset.range net.size := by
      intro j hj
      exact Finset.mem_range.mpr (net.nbrs_lt _ _ hj)
    have := Finset.card_le_card hsub2
    simpa [Finset.card_range] using this
  have hlen := popMin_length hpop
  have hmul : ((qKeys (rest ++ pushesOf net e) ∪ Finset.range net.size) \
        insert e.key seen).card * (net.size + 1) + (net.size + 1) ≤
      ((qKeys q ∪ Finset.range net.size) \ seen).card * (net.size + 1) := by
    have h1 : ((qKeys (rest ++ pushesOf net e) ∪ Finset.range net.size) \
        insert e.key seen).card + 1 ≤
        ((qKeys q ∪ Finset.range net.size) \ seen).card := hcard
    calc ((qKeys (rest ++ pushesOf net e) ∪ Finset.range net.size) \
            insert e.key seen).card * (net.size + 1) + (net.size + 1)
        = (((qKeys (rest ++ pushesOf net e) ∪ Finset.range net.size) \
            insert e.key seen).card + 1) * (net.size + 1) := by ring
      _ ≤ ((qKeys q ∪ Finset.range net.size) \ seen).card * (net.size + 1) :=
          Nat.mul_le_mul_right _ h1
  have hlen2 : (rest ++ pushesOf net e).length = rest.length + (pushesOf net e).length :=
    List.length_append _ _
  omega

/-- Search loop of Network.route (lines 58-69): pop a minimal entry; an empty
queue raises RouteNotFound (the IndexError branch); an already-finalized
satellite is skipped; otherwise the satellite is finalized with its path
extended by itself, returned if it is finish-visible, and its neighbours are
pushed with length + 1 otherwise. -/
noncomputable def routeLoop (net : Network) (finishset : Finset ℕ)
    (q : List Entry) (seen : Finset ℕ) : Except String (List ℕ) :=
  match hpop : popMin q with
  | none => .error noRouteMsg
  | some (e, rest) =>
    if hseen : e.key ∈ seen then
      routeLoop net finishset rest seen
    else if e.key ∈ finishset then
      .ok (e.path ++ [e.key])
    else
      routeLoop net finishset (rest ++ pushesOf net e) (insert e.key seen)
termination_by measureE net q seen
decreasing_by
  · exact measure_pop_lt hpop net seen
  · exact measure_push_lt net hpop hseen

lemma routeLoop_none {net : Network} {finishset : Finset ℕ} {q : List Entry}
    {seen : Finset ℕ} (hpop : popMin q = none) :
    routeLoop net finishset q seen = .error noRouteMsg := by
  rw [routeLoop]
  split
  · rfl
  · next e rest heq => rw [hpop] at heq; exact absurd heq (by simp)

lemma routeLoop_skip {net : Network} {finishset : Finset ℕ} {q : List Entry}
    {seen : Finset ℕ} {e : Entry} {rest : List Entry}
    (hpop : popMin q = some (e, rest)) (hseen : e.key ∈ seen) :
    routeLoop net finishset q seen = routeLoop net finishset rest seen := by
  rw [routeLoop]
  split
  · next heq => rw [hpop] at heq; exact absurd heq (by simp)
  · next e2 rest2 heq =>
    rw [hpop] at heq
    obtain ⟨rfl, rfl⟩ : e2 = e ∧ rest2 = rest := by
      have h2 := Option.some.inj heq
      exact ⟨congrArg Prod.fst h2.symm, congrArg Prod.snd h2.symm⟩
    rw [dif_pos hseen]

lemma routeLoop_found {net : Network} {finishset : Finset ℕ} {q : List Entry}
    {seen : Finset ℕ} {e : Entry} {rest : List Entry}
    (hpop : popMin q = some (e, rest)) (hseen : e.key ∉ seen)
    (hfin : e.key ∈ finishset) :
    routeLoop net finishset q seen = .ok (e.path ++ [e.key]) := by
  rw [routeLoop]
  split
  · next heq => rw [hpop] at heq; exact absurd heq (by simp)
  · next e2 rest2 heq =>
    rw [hpop] at heq
    obtain ⟨rfl, rfl⟩ : e2 = e ∧ rest2 = rest := by
      have h2 := Option.some.inj heq
      exact ⟨congrArg Prod.fst h2.symm, congrArg Prod.snd h2.symm⟩
    rw [dif_neg hseen, if_pos hfin]

lemma routeLoop_step {net : Network} {finishset : Finset ℕ} {q : List Entry}
    {seen : Finset ℕ} {e : Entry} {rest : List Entry}
    (hpop : popMin q = some (e, rest)) (hseen : e.key ∉ seen)
    (hfin : e.key ∉ finishset) :
    routeLoop net finishset q seen =
      routeLoop net finishset (rest ++ pushesOf net e) (insert e.key seen) := by
  rw [routeLoop]
  split
  · next heq => rw [hpop] at heq; exact absurd heq (by simp)
  · next e2 rest2 heq =>
    rw [hpop] at heq
    obtain ⟨rfl, rfl⟩ : e2 = e ∧ rest2 = rest := by
      have h2 := Option.some.inj heq
      exact ⟨congrArg Prod.fst h2.symm, congrArg Prod.snd h2.symm⟩
    rw [dif_neg hseen, if_neg hfin]

/-! ## Path predicates and the search invariants -/

/-- Neighbour relation of the network graph: b is in a's neighbour set. -/
def nbrRel (net : Network) (a b : ℕ) : Prop := b ∈ (net.sat a).neighbours

/-- A path through the neighbour graph from a start-visible satellite to a
finish-visible satellite: consecutive elements are neighbours, the head lies
in the start set and the last element in the finish set.  Its edge count is
its length minus one. -/
def IsSatPath (net : Network) (startset finishset : Finset ℕ) (p : List ℕ) : Prop :=
  List.Chain' (nbrRel net) p ∧
    (∃ h, p.head? = some h ∧ h ∈ startset) ∧
    (∃ l, p.getLast? = some l ∧ l ∈ finishset)

/-- Queue entry invariant: the recorded prefix path extended by the entry's
satellite is a neighbour chain starting at a start-visible satellite, and the
entry's length field counts its edges. -/
def ValidEntry (net : Network) (startset : Finset ℕ) (e : Entry) : Prop :=
  List.Chain' (nbrRel net) (e.path ++ [e.key]) ∧
    (∃ h, (e.path ++ [e.key]).head? = some h ∧ h ∈ startset) ∧
    (e.path ++ [e.key]).length = e.length + 1

/-- The queue covers a competitor path p: some entry lies on p at an index at
least the entry's length, and no vertex of p from that index on has been
finalized.  This is the Dijkstra cut invariant for unit weights. -/
def CoversPath (q : List Entry) (seen : Finset ℕ) (p : List ℕ) : Prop :=
  ∃ j e, e ∈ q ∧ p[j]? = some e.key ∧ e.length ≤ j ∧
    ∀ i, j ≤ i → ∀ v, p[i]? = some v → v ∉ seen

lemma head?_append_left {α : Type} (l1 l2 : List α) (h : l1 ≠ []) :
    (l1 ++ l2).head? = l1.head? := by
  cases l1 with
  | nil => exact absurd rfl h
  | cons a t => rfl

lemma nodup_idx_inj {p : List ℕ} (hnd : p.Nodup) {i j v : ℕ}
    (hi : p[i]? = some v) (hj : p[j]? = some v) : i = j := by
  obtain ⟨hi1, hi2⟩ := List.getElem?_eq_some.mp hi
  obtain ⟨hj1, hj2⟩ := List.getElem?_eq_some.mp hj
  have hinj := List.nodup_iff_injective_get.mp hnd
  have heq : p.get ⟨i, hi1⟩ = p.get ⟨j, hj1⟩ := by
    simp only [List.get_eq_getElem]
    rw [hi2, hj2]
  exact congrArg Fin.val (hinj heq)

lemma chain_getElem {R : ℕ → ℕ → Prop} {p : List ℕ} (h : List.Chain' R p)
    {i a b : ℕ} (ha : p[i]? = some a) (hb : p[i + 1]? = some b) : R a b := by
  obtain ⟨hi1, hi2⟩ := List.getElem?_eq_some.mp ha
  obtain ⟨hj1, hj2⟩ := List.getElem?_eq_some.mp hb
  have hlt : i < p.length - 1 := by omega
  have h2 := List.chain'_iff_get.mp h i hlt
  have e1 : p.get ⟨i, by omega⟩ = a := hi2
  have e2 : p.get ⟨i + 1, by omega⟩ = b := hj2
  rw [e1, e2] at h2
  exact h2

lemma valid_entries_push {net : Network} {startset : Finset ℕ} {q : List Entry}
    {e : Entry} {rest : List Entry} (hpop : popMin q = some (e, rest))
    (hval : ∀ x ∈ q, ValidEntry net startset x) :
    ∀ x ∈ rest ++ pushesOf net e, ValidEntry net startset x := by
  intro x hx
  rcases List.mem_append.mp hx with hx1 | hx2
  · exact hval x (popMin_rest_sub hpop x hx1)
  · obtain ⟨n, hn, rfl⟩ := List.mem_map.mp hx2
    have hn2 : n ∈ (net.sat e.key).neighbours := (Finset.mem_sort _).mp hn
    obtain ⟨hch, hhd, hlen⟩ := hval e (popMin_mem hpop)
    refine ⟨?_, ?_, ?_⟩
    · refine (List.chain'_append).mpr ⟨hch, List.chain'_singleton n, ?_⟩
      intro x2 hx2' y hy
      have hx2e : x2 = e.key := by
        rw [List.getLast?_concat] at hx2'
        exact (by simpa using hx2' : e.key = x2).symm
      have hyn : y = n := (by simpa using hy : n = y).symm
      subst hx2e; subst hyn
      exact hn2
    · obtain ⟨h0, hh0, hh0s⟩ := hhd
      refine ⟨h0, ?_, hh0s⟩
      rw [head?_append_left _ _ (by simp)]
      exact hh0
    · show ((e.path ++ [e.key]) ++ [n]).length = (e.length + 1) + 1
      rw [List.length_append, hlen]
      rfl

lemma covers_skip {q : List Entry} {seen : Finset ℕ} {e : Entry} {rest : List Entry}
    (hpop : popMin q = some (e, rest)) (hseen : e.key ∈ seen) {p : List ℕ}
    (hcov : CoversPath q seen p) : CoversPath rest seen p := by
  obtain ⟨j, e2, he2, hj, hlen, htrail⟩ := hcov
  have hkey : e2.key ∉ seen := htrail j (le_refl j) e2.key hj
  have hne : e2 ≠ e := fun h => hkey (by rw [h]; exact hseen)
  exact ⟨j, e2, popMin_mem_rest hpop e2 he2 hne, hj, hlen, htrail⟩

lemma covers_step {net : Network} {finishset : Finset ℕ} {q : List Entry}
    {seen : Finset ℕ} {e : Entry} {rest : List Entry}
    (hpop : popMin q = some (e, rest)) (hseen : e.key ∉ seen)
    (hfin : e.key ∉ finishset) {p : List ℕ}
    (hch : List.Chain' (nbrRel net) p)
    (hlast : ∃ l, p.getLast? = some l ∧ l ∈ finishset)
    (hnd : p.Nodup) (hcov : CoversPath q seen p) :
    CoversPath (rest ++ pushesOf net e) (insert e.key seen) p := by
  obtain ⟨j, e2, he2, hj, hlen, htrail⟩ := hcov
  by_cases hex : ∃ i, j ≤ i ∧ p[i]? = some e.key
  · obtain ⟨i0, hji0, hpi0⟩ := hex
    obtain ⟨hi0lt, hi0v⟩ := List.getElem?_eq_some.mp hpi0
    obtain ⟨lst, hlst, hlstf⟩ := hlast
    have hlstidx : p[p.length - 1]? = some lst := by
      rw [← List.getLast?_eq_getElem?]; exact hlst
    have hi0ne : i0 ≠ p.length - 1 := by
      intro hEq
      rw [hEq, hlstidx] at hpi0
      have hkl : lst = e.key := Option.some.inj hpi0
      exact hfin (hkl ▸ hlstf)
    have hi1lt : i0 + 1 < p.length := by omega
    have hw : p[i0 + 1]? = some (p.get ⟨i0 + 1, hi1lt⟩) := by
      rw [List.getElem?_eq_getElem hi1lt]
      rfl
    have hedge : nbrRel net e.key (p.get ⟨i0 + 1, hi1lt⟩) :=
      chain_getElem hch hpi0 hw
    have hen : (⟨e.length + 1, p.get ⟨i0 + 1, hi1lt⟩, e.path ++ [e.key]⟩ : Entry) ∈
        pushesOf net e := by
      unfold pushesOf
      exact List.mem_map_of_mem _ ((Finset.mem_sort _).mpr hedge)
    refine ⟨i0 + 1, ⟨e.length + 1, p.get ⟨i0 + 1, hi1lt⟩, e.path ++ [e.key]⟩,
      List.mem_append.mpr (Or.inr hen), hw, ?_, ?_⟩
    · show e.length + 1 ≤ i0 + 1
      have h1 : e.length ≤ e2.length := popMin_min hpop e2 he2
      omega
    · intro i hi v hv hmem
      rcases Finset.mem_insert.mp hmem with hvk | hvs
      · have : i = i0 := nodup_idx_inj hnd (hvk ▸ hv) hpi0
        omega
      · exact htrail i (by omega) v hv hvs
  · have hne : e2 ≠ e := by
      intro hEq
      exact hex ⟨j, le_refl j, by rw [← hEq]; exact hj⟩
    refine ⟨j, e2, List.mem_append.mpr (Or.inl (popMin_mem_rest hpop e2 he2 hne)),
      hj, hlen, ?_⟩
    intro i hi v hv hmem
    rcases Finset.mem_insert.mp hmem with hvk | hvs
    · exact hex ⟨i, hi, hvk ▸ hv⟩
    · exact htrail i hi v hv hvs

/-- Core correctness of the search loop: if every queue entry is valid and the
queue covers every duplicate-free competitor path, then a returned path is a
valid start-to-finish path and no duplicate-free competitor is shorter. -/
lemma routeLoop_ok_spec (net : Network) (startset finishset : Finset ℕ) :
    ∀ (N : ℕ) (q : List Entry) (seen : Finset ℕ), measureE net q seen ≤ N →
      (∀ x ∈ q, ValidEntry net startset x) →
      (∀ p, IsSatPath net startset finishset p → p.Nodup → CoversPath q seen p) →
      ∀ pth, routeLoop net finishset q seen = .ok pth →
        IsSatPath net startset finishset pth ∧
        ∀ p, IsSatPath net startset finishset p → p.Nodup → pth.length ≤ p.length := by
  intro N
  induction N with
  | zero =>
    intro q seen hm hval hcov pth hres
    have hq : q = [] := by
      have hql : q.length = 0 := by unfold measureE at hm; omega
      exact List.length_eq_zero.mp hql
    subst hq
    rw [routeLoop_none (show popMin [] = none from rfl)] at hres
    exact absurd hres (by simp)
  | succ N ih =>
    intro q seen hm hval hcov pth hres
    cases hpop : popMin q with
    | none =>
      rw [routeLoop_none hpop] at hres
      exact absurd hres (by simp)
    | some pr =>
      obtain ⟨e, rest⟩ := pr
      by_cases hseen : e.key ∈ seen
      · rw [routeLoop_skip hpop hseen] at hres
        refine ih rest seen ?_ ?_ ?_ pth hres
        · have := measure_pop_lt hpop net seen
          omega
        · intro x hx; exact hval x (popMin_rest_sub hpop x hx)
        · intro p hp hnd
          exact covers_skip hpop hseen (hcov p hp hnd)
      · by_cases hfin : e.key ∈ finishset
        · rw [routeLoop_found hpop hseen hfin] at hres
          have hpth : pth = e.path ++ [e.key] := (Except.ok.inj hres).symm
          subst hpth
          obtain ⟨hchE, hhdE, hlenE⟩ := hval e (popMin_mem hpop)
          constructor
          · exact ⟨hchE, hhdE, e.key, List.getLast?_concat _, hfin⟩
          · intro p hp hnd
            obtain ⟨j, e2, he2, hj, hlen2, _⟩ := hcov p hp hnd
            have h1 : e.length ≤ e2.length := popMin_min hpop e2 he2
            obtain ⟨hjlt, _⟩ := List.getElem?_eq_some.mp hj
            omega
        · rw [routeLoop_step hpop hseen hfin] at hres
          refine ih (rest ++ pushesOf net e) (insert e.key seen) ?_ ?_ ?_ pth hres
          · have := measure_push_lt net hpop hseen
            omega
          · exact valid_entries_push hpop hval
          · intro p hp hnd
            exact covers_step hpop hseen hfin hp.1 hp.2.2 hnd (hcov p hp hnd)

/-- The loop fails only with the queue-exhausted message. -/
lemma routeLoop_error_msg (net : Network) (finishset : Finset ℕ) :
    ∀ (N : ℕ) (q : List Entry) (seen : Finset ℕ), measureE net q seen ≤ N →
      ∀ msg, routeLoop net finishset q seen = .error msg → msg = noRouteMsg := by
  intro N
  induction N with
  | zero =>
    intro q seen hm msg hres
    have hq : q = [] := by
      have hql : q.length = 0 := by unfold measureE at hm; omega
      exact List.length_eq_zero.mp hql
    subst hq
    rw [routeLoop_none (show popMin [] = none from rfl)] at hres
    exact (Except.error.inj hres).symm
  | succ N ih =>
    intro q seen hm msg hres
    cases hpop : popMin q with
    | none =>
      rw [routeLoop_none hpop] at hres
      exact (Except.error.inj hres).symm
    | some pr =>
      obtain ⟨e, rest⟩ := pr
      by_cases hseen : e.key ∈ seen
      · rw [routeLoop_skip hpop hseen] at hres
        refine ih rest seen ?_ msg hres
        have := measure_pop_lt hpop net seen
        omega
      · by_cases hfin : e.key ∈ finishset
        · rw [routeLoop_found hpop hseen hfin] at hres
          exact absurd hres (by simp)
        · rw [routeLoop_step hpop hseen hfin] at hres
          refine ih (rest ++ pushesOf net e) (insert e.key seen) ?_ msg hres
          have := measure_push_lt net hpop hseen
          omega

/-! ## Removing duplicates from competitor paths -/

lemma getLast?_append_right {α : Type} (l m : List α) (h : m ≠ []) :
    (l ++ m).getLast? = m.getLast? := by
  rw [List.getLast?_append]
  cases hm : m.getLast? with
  | none => exact absurd (List.getLast?_eq_none_iff.mp hm) h
  | some x => rfl

lemma getLast?_cons_ne {α : Type} (a : α) (l : List α) (h : l ≠ []) :
    (a :: l).getLast? = l.getLast? := by
  cases l with
  | nil => exact absurd rfl h
  | cons b t => exact List.getLast?_cons_cons

/-- A chain with a duplicate vertex has a strictly shorter chain with the same
endpoints (cut out the loop between the two occurrences). -/
lemma cut_dup {R : ℕ → ℕ → Prop} :
    ∀ (p : List ℕ), List.Chain' R p → ¬ p.Nodup →
      ∃ p2, List.Chain' R p2 ∧ p2.length < p.length ∧
        p2.head? = p.head? ∧ p2.getLast? = p.getLast? := by
  intro p
  induction p with
  | nil => intro _ hnd; exact absurd List.nodup_nil hnd
  | cons x xs ih =>
    intro hch hnd
    by_cases hx : x ∈ xs
    · obtain ⟨as, bs, rfl⟩ := List.append_of_mem hx
      have hsplit : x :: (as ++ x :: bs) = (x :: as) ++ (x :: bs) := by simp
      refine ⟨x :: bs, ?_, ?_, rfl, ?_⟩
      · have hch2 : List.Chain' R ((x :: as) ++ (x :: bs)) := by
          rw [← hsplit]; exact hch
        exact (List.chain'_append.mp hch2).2.1
      · simp only [List.length_cons, List.length_append]
        omega
      · rw [hsplit, getLast?_append_right _ _ (by simp)]
    · have hnd2 : ¬ xs.Nodup := fun h => hnd (List.nodup_cons.mpr ⟨hx, h⟩)
      have hch2 : List.Chain' R xs := (List.chain'_cons'.mp hch).2
      obtain ⟨xs2, hc2, hl2, hh2, hg2⟩ := ih hch2 hnd2
      have hxs : xs ≠ [] := by rintro rfl; exact hnd2 List.nodup_nil
      have hxs2 : xs2 ≠ [] := by
        rintro rfl
        rw [List.getLast?_eq_none_iff.mpr rfl] at hg2
        exact hxs (List.getLast?_eq_none_iff.mp hg2.symm)
      refine ⟨x :: xs2, ?_, by simp only [List.length_cons]; omega, rfl, ?_⟩
      · refine List.chain'_cons'.mpr ⟨?_, hc2⟩
        intro y hy
        refine (List.chain'_cons'.mp hch).1 y ?_
        rw [← hh2]
        exact hy
      · rw [getLast?_cons_ne _ _ hxs2, getLast?_cons_ne _ _ hxs, hg2]

/-- Every start-to-finish path has a duplicate-free one that is no longer. -/
lemma exists_nodup_satpath (net : Network) (ss fs : Finset ℕ) :
    ∀ (n : ℕ) (p : List ℕ), p.length ≤ n → IsSatPath net ss fs p →
      ∃ p2, IsSatPath net ss fs p2 ∧ p2.Nodup ∧ p2.length ≤ p.length := by
  intro n
  induction n with
  | zero =>
    intro p hl hp
    obtain ⟨_, ⟨h0, hh0, _⟩, _⟩ := hp
    have : p = [] := List.length_eq_zero.mp (by omega)
    subst this
    exact absurd hh0 (by simp)
  | succ n ih =>
    intro p hl hp
    by_cases hnd : p.Nodup
    · exact ⟨p, hp, hnd, le_refl _⟩
    · obtain ⟨p2, hc2, hl2, hh2, hg2⟩ := cut_dup p hp.1 hnd
      obtain ⟨hch, ⟨h0, hh0, hh0s⟩, ⟨l0, hl0, hl0f⟩⟩ := hp
      have hp2 : IsSatPath net ss fs p2 :=
        ⟨hc2, ⟨h0, by rw [hh2]; exact hh0, hh0s⟩, ⟨l0, by rw [hg2]; exact hl0, hl0f⟩⟩
      obtain ⟨p3, h3, hnd3, hl3⟩ := ih p2 (by omega) hp2
      exact ⟨p3, h3, hnd3, by omega⟩

/-! ## Network.route (lines 48-69 of the source) -/

/-- Initial queue: one entry of length 0 with an empty prefix path for each
start-visible satellite (line 56).  Python iterates the set in its internal
order; the heap makes that order irrelevant, and we fix the ascending one. -/
noncomputable def initQueue (startset : Finset ℕ) : List Entry :=
  (startset.sort (· ≤ ·)).map (fun s => ⟨0, s, []⟩)

/-- Network.route: compute the start-visible set (failing when empty), then
the finish-visible set (failing when empty), then run the search loop. -/
noncomputable def route (net : Network) (start finish : Coordinates) :
    Except String (List ℕ) :=
  let startset := visibleSatellitesAt net start
  if startset = ∅ then .error noStartMsg
  else
    let finishset := visibleSatellitesAt net finish
    if finishset = ∅ then .error noFinishMsg
    else routeLoop net finishset (initQueue startset) ∅

lemma route_def_start_empty {net : Network} {start finish : Coordinates}
    (h : visibleSatellitesAt net start = ∅) :
    route net start finish = .error noStartMsg := by
  unfold route
  rw [if_pos h]

lemma route_def_finish_empty {net : Network} {start finish : Coordinates}
    (h1 : visibleSatellitesAt net start ≠ ∅)
    (h2 : visibleSatellitesAt net finish = ∅) :
    route net start finish = .error noFinishMsg := by
  unfold route
  rw [if_neg h1, if_pos h2]

lemma route_def_loop {net : Network} {start finish : Coordinates}
    (h1 : visibleSatellitesAt net start ≠ ∅)
    (h2 : visibleSatellitesAt net finish ≠ ∅) :
    route net start finish =
      routeLoop net (visibleSatellitesAt net finish)
        (initQueue (visibleSatellitesAt net start)) ∅ := by
  unfold route
  rw [if_neg h1, if_neg h2]

lemma init_valid (net : Network) (startset : Finset ℕ) :
    ∀ x ∈ initQueue startset, ValidEntry net startset x := by
  intro x hx
  obtain ⟨s, hs, rfl⟩ := List.mem_map.mp hx
  have hs2 : s ∈ startset := (Finset.mem_sort _).mp hs
  exact ⟨List.chain'_singleton s, ⟨s, rfl, hs2⟩, rfl⟩

lemma init_covers (net : Network) (startset finishset : Finset ℕ) :
    ∀ p, IsSatPath net startset finishset p → p.Nodup →
      CoversPath (initQueue startset) ∅ p := by
  intro p hp _
  obtain ⟨_, ⟨h0, hh0, hh0s⟩, _⟩ := hp
  refine ⟨0, ⟨0, h0, []⟩, ?_, ?_, le_refl 0, ?_⟩
  · exact List.mem_map_of_mem _ ((Finset.mem_sort _).mpr hh0s)
  · rw [← List.head?_eq_getElem?]
    exact hh0
  · intro i _ v _ hv
    exact absurd hv (Finset.not_mem_empty v)

/-- C1: for a network built by connect calls, a path returned by route is a
valid path in the neighbour graph whose head is start-visible and whose last
element is finish-visible, and no other such path has fewer vertices (hence
fewer edges: every such path is nonempty, and its edge count is its length
minus one).  The construction hypotheses record that in Python the involved
Satellite constructions succeed; route only runs in that case. -/
theorem route_returns_shortest_path (recs : List (String × Coordinates))
    (start finish : Coordinates) (p : List ℕ)
    (hrecs : ∀ r ∈ recs, ¬ constructionFails r.2)
    (hs : ¬ constructionFails start) (hf : ¬ constructionFails finish)
    (hok : route (build recs) start finish = .ok p) :
    IsSatPath (build recs) (visibleSatellitesAt (build recs) start)
      (visibleSatellitesAt (build recs) finish) p ∧
    ∀ q, IsSatPath (build recs) (visibleSatellitesAt (build recs) start)
        (visibleSatellitesAt (build recs) finish) q →
      p.length ≤ q.length ∧ p.length - 1 ≤ q.length - 1 := by
  by_cases h1 : visibleSatellitesAt (build recs) start = ∅
  · rw [route_def_start_empty h1] at hok
    exact absurd hok (by simp)
  · by_cases h2 : visibleSatellitesAt (build recs) finish = ∅
    · rw [route_def_finish_empty h1 h2] at hok
      exact absurd hok (by simp)
    · rw [route_def_loop h1 h2] at hok
      have hspec := routeLoop_ok_spec (build recs)
        (visibleSatellitesAt (build recs) start)
        (visibleSatellitesAt (build recs) finish)
        (measureE (build recs)
          (initQueue (visibleSatellitesAt (build recs) start)) ∅)
        (initQueue (visibleSatellitesAt (build recs) start)) ∅ (le_refl _)
        (init_valid _ _) (init_covers _ _ _) p hok
      refine ⟨hspec.1, ?_⟩
      intro q hq
      obtain ⟨q2, hq2, hnd2, hl2⟩ :=
        exists_nodup_satpath _ _ _ q.length q (le_refl _) hq
      have hm := hspec.2 q2 hq2 hnd2
      exact ⟨by omega, by omega⟩

/-! ## Error cases of route, purity, and reset -/

/-- C2: route fails with RouteNotFound in exactly three situations, with a
distinct reason string for each: the start visibility set is empty; otherwise
the finish visibility set is empty; otherwise the search queue exhausts.  In
every other case route returns a path.  The construction hypotheses record
that the two probe satellites construct without a domain error, as they do on
every route request the program issues (ROUTE endpoints have altitude 0). -/
theorem route_notfound_cases (net : Network) (start finish : Coordinates)
    (hs : ¬ constructionFails start) (hf : ¬ constructionFails finish) :
    (route net start finish = .error noStartMsg ↔
      visibleSatellitesAt net start = ∅) ∧
    (route net start finish = .error noFinishMsg ↔
      visibleSatellitesAt net start ≠ ∅ ∧ visibleSatellitesAt net finish = ∅) ∧
    (route net start finish = .error noRouteMsg ↔
      visibleSatellitesAt net start ≠ ∅ ∧ visibleSatellitesAt net finish ≠ ∅ ∧
        routeLoop net (visibleSatellitesAt net finish)
          (initQueue (visibleSatellitesAt net start)) ∅ = .error noRouteMsg) ∧
    (noStartMsg ≠ noFinishMsg ∧ noStartMsg ≠ noRouteMsg ∧ noFinishMsg ≠ noRouteMsg) ∧
    (route net start finish = .error noStartMsg ∨
      route net start finish = .error noFinishMsg ∨
      route net start finish = .error noRouteMsg ∨
      ∃ p, route net start finish = .ok p) := by
  have hd1 : noStartMsg ≠ noFinishMsg := by decide
  have hd2 : noStartMsg ≠ noRouteMsg := by decide
  have hd3 : noFinishMsg ≠ noRouteMsg := by decide
  by_cases h1 : visibleSatellitesAt net start = ∅
  · rw [route_def_start_empty h1]
    refine ⟨⟨fun _ => h1, fun _ => rfl⟩, ?_, ?_, ⟨hd1, hd2, hd3⟩, Or.inl rfl⟩
    · constructor
      · intro h
        exact absurd (Except.error.inj h) hd1
      · rintro ⟨hne, _⟩
        exact absurd h1 hne
    · constructor
      · intro h
        exact absurd (Except.error.inj h) hd2
      · rintro ⟨hne, _⟩
        exact absurd h1 hne
  · by_cases h2 : visibleSatellitesAt net finish = ∅
    · rw [route_def_finish_empty h1 h2]
      refine ⟨?_, ⟨fun _ => ⟨h1, h2⟩, fun _ => rfl⟩, ?_, ⟨hd1, hd2, hd3⟩,
        Or.inr (Or.inl rfl)⟩
      · constructor
        · intro h
          exact absurd (Except.error.inj h).symm hd1
        · intro hs0
          exact absurd hs0 h1
      · constructor
        · intro h
          exact absurd (Except.error.inj h) hd3
        · rintro ⟨_, hne, _⟩
          exact absurd h2 hne
    · rw [route_def_loop h1 h2]
      have herr : ∀ msg, routeLoop net (visibleSatellitesAt net finish)
          (initQueue (visibleSatellitesAt net start)) ∅ = .error msg →
          msg = noRouteMsg := fun msg h =>
        routeLoop_error_msg net (visibleSatellitesAt net finish)
          (measureE net (initQueue (visibleSatellitesAt net start)) ∅)
          (initQueue (visibleSatellitesAt net start)) ∅ (le_refl _) msg h
      refine ⟨?_, ?_, ⟨fun h => ⟨h1, h2, h⟩, fun h => h.2.2⟩, ⟨hd1, hd2, hd3⟩, ?_⟩
      · constructor
        · intro h
          exact absurd (herr _ h).symm hd2.symm
        · intro hs0
          exact absurd hs0 h1
      · constructor
        · intro h
          exact absurd (herr _ h).symm hd3.symm
        · rintro ⟨_, hf0⟩
          exact absurd hf0 h2
      · cases hres : routeLoop net (visibleSatellitesAt net finish)
            (initQueue (visibleSatellitesAt net start)) ∅ with
        | error msg =>
          have hmsg := herr msg hres
          subst hmsg
          exact Or.inr (Or.inr (Or.inl rfl))
        | ok p =>
          exact Or.inr (Or.inr (Or.inr ⟨p, rfl⟩))

/-- State-passing form of Network.visible_satellites_at: the method reads the
membership set and each member's cached geometry, builds a local probe and a
local result set, and hands the (unchanged) network state back. -/
noncomputable def visibleSatellitesAtSt (net : Network) (c : Coordinates) :
    Finset ℕ × Network :=
  let t := mkSatellite "T" c
  let visible := Finset.filter (fun i => lineofsight (net.sat i) t) (Finset.range net.size)
  (visible, net)

/-- State-passing form of Network.route, statement by statement: the two
visibility queries thread the network state; the queue, the seen set and the
paths are local values; no statement of the method assigns to the membership
set or to any member's neighbour set. -/
noncomputable def routeSt (net : Network) (start finish : Coordinates) :
    Except String (List ℕ) × Network :=
  let r1 := visibleSatellitesAtSt net start
  if r1.1 = ∅ then (.error noStartMsg, r1.2)
  else
    let r2 := visibleSatellitesAtSt r1.2 finish
    if r2.1 = ∅ then (.error noFinishMsg, r2.2)
    else (routeLoop r2.2 r2.1 (initQueue r1.1) ∅, r2.2)

/-- C7: route and visible_satellites_at mutate nothing observable: the network
state they return (membership and every member's neighbour set) is exactly the
input state — in particular the transient probe is never added to membership —
and their results agree with the pure functions of the input state, whether
the route call returns a path or fails. -/
theorem route_and_visibility_pure (net : Network) (start finish c : Coordinates) :
    (routeSt net start finish).2 = net ∧
    (visibleSatellitesAtSt net c).2 = net ∧
    (routeSt net start finish).1 = route net start finish ∧
    (visibleSatellitesAtSt net c).1 = visibleSatellitesAt net c := by
  refine ⟨?_, rfl, ?_, rfl⟩
  · unfold routeSt visibleSatellitesAtSt
    dsimp only
    split_ifs <;> rfl
  · unfold routeSt route visibleSatellitesAtSt visibleSatellitesAt
    dsimp only
    split_ifs <;> rfl

/-- Network.reset (lines 36-40), modelled from the source: the loop body calls
self.visible_satellites_at(*s.coordinates), unpacking the three coordinate
fields into three positional arguments for a method that accepts a single
coordinates argument, so the first iteration raises TypeError on every
non-empty network; on an empty network the loop body never runs and reset
returns with the network unchanged.  The TypeError is modelled as
Except.error (). -/
noncomputable def reset (net : Network) : Except Unit Network :=
  if net.size = 0 then .ok net else .error ()

/-- C6 (code bug): on every non-empty network, reset raises instead of
recomputing the neighbour sets, because of the stray argument unpacking. -/
theorem reset_raises_on_nonempty (net : Network) (h : 0 < net.size) :
    reset net = .error () := by
  unfold reset
  rw [if_neg (by omega)]

/-- Each connect call adds exactly one member. -/
lemma build_size (recs : List (String × Coordinates)) :
    (build recs).size = recs.length := by
  have general : ∀ (l : List (String × Coordinates)) (net : Network),
      (l.foldl (fun n r => connect n (mkSatellite r.1 r.2)) net).size =
        net.size + l.length := by
    intro l
    induction l with
    | nil => intro net; simp
    | cons r tl ih =>
      intro net
      simp only [List.foldl_cons, List.length_cons]
      rw [ih]
      show net.size + 1 + tl.length = net.size + (tl.length + 1)
      omega
  have h := general recs emptyNetwork
  rw [build, h]
  show 0 + recs.length = recs.length
  omega

/-! ## Concrete instances for the witnesses -/

/-- Ground point at latitude 0, longitude 0, altitude 0. -/
noncomputable def origin : Coordinates := ⟨0, 0, 0⟩

/-- One SAT record: S1 at latitude 0, longitude 0, altitude 1000 km. -/
noncomputable def sampleRecs : List (String × Coordinates) := [("S1", ⟨0, 0, 1000⟩)]

/-- One SAT record with a satellite on the reference surface itself. -/
noncomputable def groundRecs : List (String × Coordinates) := [("G", origin)]

lemma visible_empty (c : Coordinates) : visibleSatellitesAt emptyNetwork c = ∅ := by
  rw [Finset.eq_empty_iff_forall_not_mem]
  intro i hi
  exact absurd (mem_visible_lt hi) (Nat.not_lt_zero i)

lemma theta_lat_zero (ident : String) (c : Coordinates) (h : c.latitude = 0) :
    (mkSatellite ident c).spherical.theta = Real.pi / 2 := by
  show (90 - c.latitude) * (2 * Real.pi / 360) = Real.pi / 2
  rw [h]
  ring

lemma phi_lon_zero (ident : String) (c : Coordinates) (h : c.longitude = 0) :
    (mkSatellite ident c).spherical.phi = 0 := by
  show c.longitude * (2 * Real.pi / 360) = 0
  rw [h]
  ring

lemma los_1000_0 :
    lineofsight (mkSatellite "S1" ⟨0, 0, 1000⟩) (mkSatellite "T" origin) := by
  have hprobe : (mkSatellite "T" origin).horizon = ⟨0, 1⟩ :=
    horizon_of_zero_altitude _ _ rfl
  unfold lineofsight
  rw [hprobe, theta_lat_zero "S1" ⟨0, 0, 1000⟩ rfl, theta_lat_zero "T" origin rfl,
    phi_lon_zero "S1" ⟨0, 0, 1000⟩ rfl, phi_lon_zero "T" origin rfl]
  rw [Real.cos_pi_div_two, Real.sin_pi_div_two, sub_zero, Real.cos_zero]
  have hcos : (mkSatellite "S1" ⟨0, 0, 1000⟩).horizon.cos = 6371 / 7371 := by
    show radiusOfEarth / (radiusOfEarth + (1000 : ℝ)) = 6371 / 7371
    unfold radiusOfEarth
    norm_num
  rw [hcos]
  norm_num

lemma sample_sat0 : (build sampleRecs).sat 0 =
    { mkSatellite "S1" ⟨0, 0, 1000⟩ with neighbours := (∅ : Finset ℕ) } := by
  have h1 : (build sampleRecs).sat 0 =
      { mkSatellite "S1" ⟨0, 0, 1000⟩ with
        neighbours := visibleSatellitesAt emptyNetwork
          ((mkSatellite "S1" ⟨0, 0, 1000⟩).coordinates) } := by
    show (connect emptyNetwork (mkSatellite "S1" ⟨0, 0, 1000⟩)).sat 0 = _
    exact connect_sat_at_new emptyNetwork (mkSatellite "S1" ⟨0, 0, 1000⟩)
  rw [h1, visible_empty]

lemma sample_visible : visibleSatellitesAt (build sampleRecs) origin = {0} := by
  have hsz : (build sampleRecs).size = 1 := by
    rw [build_size]
    rfl
  have hlos : lineofsight ((build sampleRecs).sat 0) (mkSatellite "T" origin) := by
    rw [sample_sat0]
    exact los_1000_0
  apply Finset.ext
  intro i
  rw [mem_visible_iff, hsz, Finset.mem_singleton]
  constructor
  · rintro ⟨hi, _⟩
    omega
  · rintro rfl
    exact ⟨by omega, hlos⟩

lemma sample_route : route (build sampleRecs) origin origin = .ok [0] := by
  have h1 := sample_visible
  have hne : visibleSatellitesAt (build sampleRecs) origin ≠ ∅ := by
    rw [h1]
    exact Finset.singleton_ne_empty 0
  rw [route_def_loop hne hne, h1]
  have hq : initQueue ({0} : Finset ℕ) = [⟨0, 0, []⟩] := by
    unfold initQueue
    rw [Finset.sort_singleton]
    rfl
  rw [hq]
  have hpop : popMin [(⟨0, 0, []⟩ : Entry)] = some (⟨0, 0, []⟩, []) := rfl
  rw [routeLoop_found hpop (Finset.not_mem_empty 0) (Finset.mem_singleton_self 0)]
  rfl

lemma noFail_origin : ¬ constructionFails origin := by
  rw [constructionFails_band]
  rintro ⟨_, h2⟩
  have h0 : origin.altitude = 0 := rfl
  rw [h0] at h2
  exact absurd h2 (by norm_num)

lemma noFail_1000 : ¬ constructionFails ⟨0, 0, 1000⟩ := by
  rw [constructionFails_band]
  rintro ⟨_, h2⟩
  have h0 : Coordinates.altitude ⟨0, 0, 1000⟩ = 1000 := rfl
  rw [h0] at h2
  exact absurd h2 (by norm_num)

lemma ground_sat0_alt : ((build groundRecs).sat 0).coordinates.altitude = 0 := by
  have h1 : (build groundRecs).sat 0 =
      { mkSatellite "G" origin with
        neighbours := visibleSatellitesAt emptyNetwork
          ((mkSatellite "G" origin).coordinates) } := by
    show (connect emptyNetwork (mkSatellite "G" origin)).sat 0 = _
    exact connect_sat_at_new emptyNetwork (mkSatellite "G" origin)
  rw [h1]
  rfl

/-- C1 witness: the one-satellite network (S1 at altitude 1000) routed from
the origin to itself returns the path [0]; the shortest-path theorem applies
to it with every hypothesis discharged on this concrete input. -/
theorem route_returns_shortest_path_witness :
    IsSatPath (build sampleRecs) (visibleSatellitesAt (build sampleRecs) origin)
      (visibleSatellitesAt (build sampleRecs) origin) [0] ∧
    ∀ q, IsSatPath (build sampleRecs) (visibleSatellitesAt (build sampleRecs) origin)
        (visibleSatellitesAt (build sampleRecs) origin) q →
      [0].length ≤ q.length ∧ [0].length - 1 ≤ q.length - 1 :=
  route_returns_shortest_path sampleRecs origin origin [0]
    (by
      intro r hr
      have hr2 : r = ("S1", ⟨0, 0, 1000⟩) := List.mem_singleton.mp hr
      rw [hr2]
      exact noFail_1000)
    noFail_origin noFail_origin sample_route

/-- C2 witness: on the empty network with origin endpoints the theorem applies
with its construction hypotheses discharged; concretely the start visibility
set is empty and route reports the start case. -/
theorem route_notfound_cases_witness :
    (route emptyNetwork origin origin = .error noStartMsg ↔
      visibleSatellitesAt emptyNetwork origin = ∅) ∧
    (route emptyNetwork origin origin = .error noFinishMsg ↔
      visibleSatellitesAt emptyNetwork origin ≠ ∅ ∧
        visibleSatellitesAt emptyNetwork origin = ∅) ∧
    (route emptyNetwork origin origin = .error noRouteMsg ↔
      visibleSatellitesAt emptyNetwork origin ≠ ∅ ∧
        visibleSatellitesAt emptyNetwork origin ≠ ∅ ∧
        routeLoop emptyNetwork (visibleSatellitesAt emptyNetwork origin)
          (initQueue (visibleSatellitesAt emptyNetwork origin)) ∅ =
            .error noRouteMsg) ∧
    (noStartMsg ≠ noFinishMsg ∧ noStartMsg ≠ noRouteMsg ∧ noFinishMsg ≠ noRouteMsg) ∧
    (route emptyNetwork origin origin = .error noStartMsg ∨
      route emptyNetwork origin origin = .error noFinishMsg ∨
      route emptyNetwork origin origin = .error noRouteMsg ∨
      ∃ p, route emptyNetwork origin origin = .ok p) :=
  route_notfound_cases emptyNetwork origin origin noFail_origin noFail_origin

/-- C6 witness: a network containing one satellite makes reset raise. -/
theorem reset_raises_on_nonempty_witness :
    reset (build sampleRecs) = .error () :=
  reset_raises_on_nonempty (build sampleRecs)
    (by
      rw [build_size]
      norm_num [sampleRecs])

/-- C10 witness: with one satellite at the origin ground point, an origin
probe at the exact same coordinates still sees nothing. -/
theorem altitude_zero_never_visible_witness :
    0 ∉ visibleSatellitesAt (build groundRecs) origin :=
  altitude_zero_never_visible groundRecs origin 0 rfl ground_sat0_alt

end Reaktor
